import Mathlib

/-!
Verification development for the geoApi layer-record module.

The definitions below are a shallow embedding of the JavaScript sources:
  src/src/layer/layerRec/basicFC.js        (BasicFC, scale visibility)
  src/src/layer/layerRec/dynamicRecord.js  (DynamicRecord, sub-config defaulting,
                                            child-tree construction, proxies)
  src/src/layer/layerRec/layerInterface.js (LayerInterface rebinding)
  src/unnamed/part_000                     (WMS title lookup and symbology naming)
  src/unnamed/part_001                     (FeatureRecord)

JavaScript objects keyed by stringified integers are modelled as maps from
natural numbers; JavaScript falsiness of strings is modelled by the empty
string; thrown exceptions are modelled with Except; mutation is modelled by
explicit state passing.
-/

/-- Update of a finite partial map at one key. Mirrors assignment to a
property of a JavaScript object used as a dictionary. -/
def updFun {α : Type} (f : ℕ → Option α) (k : ℕ) (v : α) : ℕ → Option α :=
  fun j => if j = k then some v else f j

/-- Scale bounds of a feature class, as returned by getScaleSet in basicFC.js
(read from the parent layer). A value of zero means no bound is in effect. -/
structure ScaleSet where
  minScale : ℚ
  maxScale : ℚ
deriving DecidableEq

/-- Result object built by BasicFC.isOffScale in basicFC.js. -/
structure OffScaleResult where
  offScale : Bool
  zoomIn : Bool
deriving DecidableEq

/-- Embedding of BasicFC.isOffScale (src/src/layer/layerRec/basicFC.js,
lines 48-72), with the asynchronous scale-set fetch made explicit as a
parameter. The source initialises the result to offScale false / zoomIn
false, then runs the two guarded branches. -/
def isOffScale (scaleSet : ScaleSet) (mapScale : ℚ) : OffScaleResult :=
  if mapScale < scaleSet.maxScale ∧ scaleSet.maxScale ≠ 0 then
    { offScale := true, zoomIn := false }
  else if mapScale > scaleSet.minScale ∧ scaleSet.minScale ≠ 0 then
    { offScale := true, zoomIn := true }
  else
    { offScale := false, zoomIn := false }

/-- Node of the nested esri layerInfos catalog of a WMS layer, as crawled by
getWMSLayerTitle in src/unnamed/part_000. A missing title is modelled as the
empty string, which is falsy in the source as well. -/
inductive WmsNode where
  | mk (name : String) (title : String) (subLayers : List WmsNode)

/-- Name of a WMS catalog node (wms ids are stored in the name field). -/
def WmsNode.name : WmsNode → String
  | .mk n _ _ => n

/-- Title of a WMS catalog node. -/
def WmsNode.title : WmsNode → String
  | .mk _ t _ => t

/-- Embedding of the crawlSubLayers closure of getWMSLayerTitle
(src/unnamed/part_000, lines 20-40). The source iterates with Array.some:
a name match stores the node in the local targetEntry and stops; a truthy
recursive result also stops the iteration, but the local targetEntry of the
outer call is left null, so the outer call returns null in that case; a null
recursive result continues with the remaining siblings. -/
def crawlSubLayers : List WmsNode → String → Option WmsNode
  | [], _ => none
  | WmsNode.mk n t subs :: rest, wmsLayerId =>
    if n = wmsLayerId then some (WmsNode.mk n t subs)
    else
      match crawlSubLayers subs wmsLayerId with
      | some _ => none
      | none => crawlSubLayers rest wmsLayerId

/-- Embedding of getWMSLayerTitle (src/unnamed/part_000, lines 13-49):
crawl the catalog, then return the title when the match is truthy and has a
truthy title, and the empty string otherwise. -/
def getWMSLayerTitle (layerInfos : List WmsNode) (wmsLayerId : String) : String :=
  match crawlSubLayers layerInfos wmsLayerId with
  | some m => if m.title = "" then "" else m.title
  | none => ""

/-- Pre-order flattening of a WMS catalog forest (node before its subtree,
subtree before later siblings). -/
def wmsPreorder : List WmsNode → List WmsNode
  | [] => []
  | WmsNode.mk n t subs :: rest => WmsNode.mk n t subs :: (wmsPreorder subs ++ wmsPreorder rest)

/-- Stated from the words of the specification and claim C3: the depth-first
title lookup returns the title of the first node in pre-order whose name
equals the identifier, and the empty-string sentinel when no node matches or
the matching node has no title. -/
def claimWmsTitle (layerInfos : List WmsNode) (wmsLayerId : String) : String :=
  match (wmsPreorder layerInfos).find? (fun nd => nd.name == wmsLayerId) with
  | some m => if m.title = "" then "" else m.title
  | none => ""

/-- Catalog with the requested identifier one level below the top: the claim
expects the title T to be found there. -/
def c3Tree : List WmsNode :=
  [WmsNode.mk "A" "" [WmsNode.mk "target" "T" []]]

/-- One configured layer entry of a WMS record (config.layerEntries in
WmsFC.loadSymbology, src/unnamed/part_000). An absent configured name is
modelled by the empty string, which is falsy in the source as well. -/
structure WmsConfigEntry where
  id : String
  name : String
deriving DecidableEq

/-- JavaScript string disjunction a || b, where only the empty string is
falsy. -/
def jsOrStr (a b : String) : String :=
  if a = "" then b else a

/-- Embedding of the display-name expression of WmsFC.loadSymbology
(src/unnamed/part_000, lines 69-72): configured name, else server title,
else raw configured id. -/
def wmsEntryName (layerInfos : List WmsNode) (le : WmsConfigEntry) : String :=
  jsOrStr le.name (jsOrStr (getWMSLayerTitle layerInfos le.id) le.id)

/-- Display names of the legend array built by WmsFC.loadSymbology, one per
configured layer entry, in configuration order. -/
def wmsSymbologyNames (layerInfos : List WmsNode) (entries : List WmsConfigEntry) : List String :=
  entries.map (fun le => wmsEntryName layerInfos le)

/-- Stated from the words of claim C4: the server-side title first, then the
configured name, then the raw configured identifier. -/
def claimWmsEntryName (layerInfos : List WmsNode) (le : WmsConfigEntry) : String :=
  jsOrStr (getWMSLayerTitle layerInfos le.id) (jsOrStr le.name le.id)

/-- Catalog for the C4 counterexample: the server does define a title for
identifier X. -/
def c4Layer : List WmsNode := [WmsNode.mk "X" "SRV" []]

/-- Configured entry for the C4 counterexample: both a configured name and a
server-side title exist. -/
def c4Entry : WmsConfigEntry := ⟨"X", "CFG"⟩

/-- Child sub-layer state object (opacity, visibility, query), the shape of
the dummy default built in fetchSubConfig (dynamicRecord.js, lines 136-140). -/
structure SubLayerState where
  opacity : ℚ
  visibility : Bool
  query : Bool
deriving DecidableEq

/-- The fixed dummy state of fetchSubConfig: opacity 1, visibility false,
query disabled. -/
def dummyState : SubLayerState :=
  { opacity := 1, visibility := false, query := false }

/-- One child configuration object: an element of config.layerEntries, or the
fully defaulted object built for an unconfigured index. An absent name is the
empty string (falsy in the source); absent outfields and state are modelled
with Option because the source tests outfields with hasOwnProperty and
overwrites state. -/
structure SubConfig where
  name : String
  state : Option SubLayerState
  outfields : Option String
  index : ℕ
  stateOnly : Bool
deriving DecidableEq

/-- Entry of the subConfigs collation built by DynamicRecord.onLoad: a copied
config plus the defaulted marker (dynamicRecord.js, lines 122-129). -/
structure SubConfigEntry where
  config : SubConfig
  defaulted : Bool
deriving DecidableEq

/-- The subConfigs table of DynamicRecord.onLoad, keyed by stringified
integer index in the source, modelled with natural number keys. -/
abbrev ConfigTable := ℕ → Option SubConfigEntry

/-- Embedding of the fetchSubConfig closure of DynamicRecord.onLoad
(dynamicRecord.js, lines 134-181). It returns the sub-config for an index
together with the updated table. An existing defaulted entry is returned
unchanged; an existing non-defaulted entry has its state overwritten with the
dummy state (the source treats pre-load state as unreliable), its outfields
defaulted to the wildcard when absent, its name filled from the server when
falsy, and is marked defaulted; a missing entry is created fully defaulted
with stateOnly true. -/
def fetchSubConfig (t : ConfigTable) (id : ℕ) (serverName : String) :
    SubConfig × ConfigTable :=
  match t id with
  | some subC =>
    if subC.defaulted then (subC.config, t)
    else
      (let c := subC.config
       let c1 : SubConfig :=
        { name := if c.name = "" then serverName else c.name
          state := some dummyState
          outfields := match c.outfields with
            | some o => some o
            | none => some "*"
          index := c.index
          stateOnly := c.stateOnly }
       (c1, updFun t id ⟨c1, true⟩))
  | none =>
    (let c1 : SubConfig :=
      { name := serverName, state := some dummyState, outfields := some "*",
        index := id, stateOnly := true }
     (c1, updFun t id ⟨c1, true⟩))

/-- Configured entry for the C5 counterexample: its state is present (visible
and queryable), along with a name and outfields. -/
def c5Config : SubConfig :=
  { name := "N", state := some ⟨1, true, true⟩, outfields := some "A,B",
    index := 5, stateOnly := false }

/-- Table holding the C5 counterexample entry, not yet defaulted. -/
def c5Table : ConfigTable := updFun (fun _ => none) 5 ⟨c5Config, false⟩

/-- Entry for the C6 witness: already defaulted. -/
def c6Entry : SubConfigEntry :=
  ⟨{ name := "M", state := some dummyState, outfields := some "*",
     index := 6, stateOnly := false }, true⟩

/-- Table holding the C6 witness entry. -/
def c6Table : ConfigTable := updFun (fun _ => none) 6 c6Entry

/-- Data of a DynamicFC child feature class as far as the proxies observe it.
Modelled from the spec: dynamicFC.js is not under src; per the BasicFC
constructor (src/src/layer/layerRec/basicFC.js, lines 26-34, which the
dynamic feature class derives from) a feature class takes its name from the
config name and its queryable flag from the config state, and the spec
(section 3, Feature-Class State) gives it its service index. -/
structure DynamicFCData where
  idx : ℕ
  name : String
  queryable : Bool
deriving DecidableEq

/-- Construction of the DynamicFC payload from a resolved sub-config.
Modelled from the spec: see DynamicFCData. Resolved sub-configs always carry
a state, so the fallback for an absent state is never exercised on the paths
of DynamicRecord.onLoad. -/
def mkDynamicFC (idx : ℕ) (c : SubConfig) : DynamicFCData :=
  { idx := idx, name := c.name,
    queryable := (c.state.map SubLayerState.query).getD false }

/-- Backing source of a LayerInterface: null (the constructor argument used
for new leaf proxies in DynamicRecord.onLoad), a placeholder feature class
carrying a name, or a real dynamic feature class. -/
inductive ProxySource where
  | nullSrc
  | pfc (name : String)
  | dfc (d : DynamicFCData)
deriving DecidableEq

/-- Which getter set is currently installed on a LayerInterface: the
error-throwing stubs of the constructor, the placeholder set installed by
convertToPlaceholder, or the dynamic-leaf set installed by
convertToDynamicLeaf (layerInterface.js). -/
inductive DispatchKind where
  | stub
  | placeholderKind
  | dynamicLeafKind
deriving DecidableEq

/-- State of a LayerInterface object (layerInterface.js): its current source,
its placeholder flag, and the installed getter set. -/
structure LayerInterface where
  source : ProxySource
  isPlaceholder : Bool
  kind : DispatchKind
deriving DecidableEq

/-- Embedding of the LayerInterface constructor (layerInterface.js, lines
17-22): stores the source, sets the placeholder flag, leaves the error
stubs installed. -/
def LayerInterface.create (src : ProxySource) : LayerInterface :=
  { source := src, isPlaceholder := true, kind := .stub }

/-- Embedding of updateSource (layerInterface.js, lines 68-70): replaces the
source only; flag and installed getters are untouched. -/
def LayerInterface.updateSource (li : LayerInterface) (src : ProxySource) : LayerInterface :=
  { li with source := src }

/-- Embedding of convertToPlaceholder (layerInterface.js, lines 132-140):
rebinds the source to the given placeholder feature class, sets the
placeholder flag and installs the placeholder getter set. -/
def LayerInterface.convertToPlaceholder (_li : LayerInterface) (pfcName : String) :
    LayerInterface :=
  { source := ProxySource.pfc pfcName, isPlaceholder := true,
    kind := .placeholderKind }

/-- Embedding of convertToDynamicLeaf (layerInterface.js, lines 107-130):
rebinds the source to the given dynamic feature class, clears the
placeholder flag and installs the dynamic-leaf getter set. -/
def LayerInterface.convertToDynamicLeaf (_li : LayerInterface) (d : DynamicFCData) :
    LayerInterface :=
  { source := ProxySource.dfc d, isPlaceholder := false,
    kind := .dynamicLeafKind }

/-- Reading the name property of the current source: the getter bodies
standardGetName and dynamicLeafGetName (layerInterface.js) both return
this._source.name. -/
def ProxySource.nameProp : ProxySource → Except String String
  | .nullSrc => .error "TypeError: Cannot read property name of null"
  | .pfc n => .ok n
  | .dfc d => .ok d.name

/-- Name getter dispatch of a LayerInterface: the constructor stub throws
Call not supported, while both the placeholder and the dynamic-leaf getter
sets read the name through the current source. -/
def LayerInterface.getName (li : LayerInterface) : Except String String :=
  match li.kind with
  | .stub => .error "Call not supported."
  | .placeholderKind => li.source.nameProp
  | .dynamicLeafKind => li.source.nameProp

/-- One cached proxy of a DynamicRecord: an object identity (stable for the
lifetime of the JavaScript object) and the current object state. -/
structure ProxyEntry where
  pid : ℕ
  obj : LayerInterface
deriving DecidableEq

/-- Node of the child tree built by DynamicRecord.onLoad (lines 192-222): a
group node carries its index, its resolved name and its ordered children; a
leaf node carries only its index. -/
inductive TreeNode where
  | group (entryIndex : ℕ) (name : String) (childs : List TreeNode)
  | leaf (entryIndex : ℕ)

/-- State of a DynamicRecord as the claims observe it: the proxy cache
(this._proxies) with an id source for fresh proxy objects, the child tree
(this._childTree, absent before onLoad), and the feature-class table
(this._featClasses). -/
structure DynamicRecordState where
  nextProxyId : ℕ
  proxies : ℕ → Option ProxyEntry
  childTree : Option (List TreeNode)
  featClasses : ℕ → Option DynamicFCData

/-- A freshly constructed DynamicRecord (dynamicRecord.js, lines 46-61): no
proxies, no child tree, no feature classes. -/
def freshDynamicRecord : DynamicRecordState :=
  { nextProxyId := 0, proxies := fun _ => none, childTree := none,
    featClasses := fun _ => none }

/-- Embedding of DynamicRecord.getChildProxy (dynamicRecord.js, lines
69-93): a cached proxy is returned as is; otherwise a new proxy object is
created, converted to a placeholder over a fresh empty-named placeholder
feature class, cached under the index and returned. No error is ever
raised. -/
def getChildProxy (s : DynamicRecordState) (featureIdx : ℕ) :
    ProxyEntry × DynamicRecordState :=
  match s.proxies featureIdx with
  | some pe => (pe, s)
  | none =>
    let pe : ProxyEntry :=
      ⟨s.nextProxyId,
       (LayerInterface.create (ProxySource.pfc "")).convertToPlaceholder ""⟩
    (pe, { s with nextProxyId := s.nextProxyId + 1,
                  proxies := updFun s.proxies featureIdx pe })

/-- One entry of the layerInfos array reported by the remote dynamic layer:
its id, its server name, and the ids of its sub-layers (empty for a leaf;
the source tests subLayerIds && subLayerIds.length > 0). -/
structure LayerInfo where
  id : ℕ
  name : String
  subLayerIds : List ℕ
deriving DecidableEq

/-- Mutable context threaded through DynamicRecord.onLoad: the subConfigs
table, the proxy cache, and the id source for fresh proxy objects. -/
structure LoadCtx where
  subConfigs : ConfigTable
  nextProxyId : ℕ
  proxies : ℕ → Option ProxyEntry

/-- Iteration of processLayerInfo over the subLayerIds of a group
(dynamicRecord.js, lines 203-205), parameterised by the processing of one
child info. Looking up an unknown id yields undefined, on which the
recursive call would immediately throw. -/
def processSubIds (procOne : LayerInfo → LoadCtx → Except String (TreeNode × LoadCtx))
    (infos : ℕ → Option LayerInfo) :
    List ℕ → LoadCtx → Except String (List TreeNode × LoadCtx)
  | [], ctx => .ok ([], ctx)
  | slid :: rest, ctx =>
    match infos slid with
    | none => .error "TypeError: Cannot read property id of undefined"
    | some cli =>
      match procOne cli ctx with
      | .error e => .error e
      | .ok (nd, ctx1) =>
        match processSubIds procOne infos rest ctx1 with
        | .error e => .error e
        | .ok (nds, ctx2) => .ok (nd :: nds, ctx2)

/-- Embedding of the processLayerInfo closure of DynamicRecord.onLoad
(dynamicRecord.js, lines 188-223). The sub-config for the node is fetched
(defaulting it with the server name), then a node with a non-empty
subLayerIds list becomes a group whose children are processed in server
order, and any other node becomes a leaf, whose pre-existing proxy is
updated to a placeholder feature class named by the resolved sub-config, or
a fresh placeholder proxy is cached when none exists. The fuel argument
bounds the recursion depth of the model; the source recurses without bound
on the (finite, acyclic) server hierarchy. -/
def processLayerInfo : ℕ → (ℕ → Option LayerInfo) → LayerInfo → LoadCtx →
    Except String (TreeNode × LoadCtx)
  | 0, _, _, _ => .error "modelling depth exceeded"
  | Nat.succ fuel, infos, li, ctx =>
    let fr := fetchSubConfig ctx.subConfigs li.id li.name
    let ctx1 : LoadCtx := { ctx with subConfigs := fr.2 }
    if li.subLayerIds.isEmpty then
      match ctx1.proxies li.id with
      | some pe =>
        .ok (TreeNode.leaf li.id,
          { ctx1 with proxies := (updFun ctx1.proxies li.id
              ⟨pe.pid, pe.obj.updateSource (ProxySource.pfc fr.1.name)⟩) })
      | none =>
        .ok (TreeNode.leaf li.id,
          { ctx1 with
              proxies := (updFun ctx1.proxies li.id
                ⟨ctx1.nextProxyId,
                 (LayerInterface.create ProxySource.nullSrc).convertToPlaceholder fr.1.name⟩),
              nextProxyId := ctx1.nextProxyId + 1 })
    else
      match processSubIds (processLayerInfo fuel infos) infos li.subLayerIds ctx1 with
      | .error e => .error e
      | .ok (nds, ctx2) => .ok (TreeNode.group li.id fr.1.name nds, ctx2)

/-- Iteration of DynamicRecord.onLoad over config.layerEntries (lines
228-234): every non-stateOnly entry has the layerInfo at its index
processed into the child tree. -/
def processTopEntries (fuel : ℕ) (infos : ℕ → Option LayerInfo) :
    List SubConfig → LoadCtx → Except String (List TreeNode × LoadCtx)
  | [], ctx => .ok ([], ctx)
  | le :: rest, ctx =>
    if le.stateOnly then processTopEntries fuel infos rest ctx
    else
      match infos le.index with
      | none => .error "TypeError: Cannot read property id of undefined"
      | some li =>
        match processLayerInfo fuel infos li ctx with
        | .error e => .error e
        | .ok (nd, ctx1) =>
          match processTopEntries fuel infos rest ctx1 with
          | .error e => .error e
          | .ok (nds, ctx2) => .ok (nd :: nds, ctx2)

/-- Result of the attribute-bundle loop of DynamicRecord.onLoad: the
feature-class table, the list of keys created in it (in insertion order),
and the final context. -/
structure AttachResult where
  featClasses : ℕ → Option DynamicFCData
  featKeys : List ℕ
  ctx : LoadCtx

/-- Embedding of the attributeBundle.indexes loop of DynamicRecord.onLoad
(lines 261-292): for every reported index whose sub-config exists and is
defaulted, a dynamic feature class is built from the sub-config and stored,
and a proxy cached under that index is converted from placeholder to
dynamic leaf over it. The subConfigs table is only read here. -/
def attachFeatClasses :
    LoadCtx → (ℕ → Option DynamicFCData) → List ℕ → List ℕ → AttachResult
  | ctx, fcs, keys, [] => ⟨fcs, keys, ctx⟩
  | ctx, fcs, keys, idx :: rest =>
    match ctx.subConfigs idx with
    | some subC =>
      if subC.defaulted then
        (let d := mkDynamicFC idx subC.config
         let ctx1 : LoadCtx :=
          match ctx.proxies idx with
          | some pe =>
            { ctx with proxies := (updFun ctx.proxies idx
                ⟨pe.pid, pe.obj.convertToDynamicLeaf d⟩) }
          | none => ctx
         attachFeatClasses ctx1 (updFun fcs idx d) (keys ++ [idx]) rest)
      else attachFeatClasses ctx fcs keys rest
    | none => attachFeatClasses ctx fcs keys rest

/-- JavaScript value universe reachable by the initial-visibility expression
of DynamicRecord.onLoad line 301. -/
inductive JsValue where
  | undefVal
  | boolVal (b : Bool)
  | numVal (q : ℚ)
  | strVal (s : String)
  | stateVal (s : SubLayerState)
deriving DecidableEq

/-- Property read on a sub-config object. A sub-config object has exactly
the fields name, state, outfields, index and stateOnly; any other property,
and any absent optional field, reads as undefined. -/
def SubConfig.jsGet (c : SubConfig) (field : String) : JsValue :=
  if field = "name" then .strVal c.name
  else if field = "state" then
    match c.state with
    | some st => .stateVal st
    | none => .undefVal
  else if field = "outfields" then
    match c.outfields with
    | some o => .strVal o
    | none => .undefVal
  else if field = "index" then .numVal c.index
  else if field = "stateOnly" then .boolVal c.stateOnly
  else .undefVal

/-- JavaScript member access: reading any property of undefined throws a
TypeError; reading a known property of a state object yields it; any other
read yields undefined. -/
def jsMember (v : JsValue) (field : String) : Except String JsValue :=
  match v with
  | .undefVal => .error ("TypeError: Cannot read property " ++ field ++ " of undefined")
  | .stateVal st =>
    if field = "opacity" then .ok (.numVal st.opacity)
    else if field = "visibility" then .ok (.boolVal st.visibility)
    else if field = "query" then .ok (.boolVal st.query)
    else .ok .undefVal
  | _ => .ok .undefVal

/-- JavaScript truthiness of the values above. -/
def jsTruthy : JsValue → Bool
  | .undefVal => false
  | .boolVal b => b
  | .numVal q => decide (q ≠ 0)
  | .strVal s => decide (s ≠ "")
  | .stateVal _ => true

/-- Embedding of the filter predicate of the initial-visibility computation
(dynamicRecord.js, line 301), which evaluates
fetchSubConfig(fcId).config.state.visibility. fetchSubConfig returns the
sub-config object itself, which has no config property, so the .config read
yields undefined and the subsequent .state read throws. -/
def initVisPred (t : ConfigTable) (fcId : ℕ) : Except String (Bool × ConfigTable) :=
  let fr := fetchSubConfig t fcId ""
  match jsMember (fr.1.jsGet "config") "state" with
  | .error e => .error e
  | .ok v1 =>
    match jsMember v1 "visibility" with
    | .error e => .error e
    | .ok v2 => .ok (jsTruthy v2, fr.2)

/-- The filter over Object.keys(this._featClasses) of dynamicRecord.js lines
300-302, threading the subConfigs table through the fetches, with parseInt
applied to the surviving keys. -/
def initVisFilter : ConfigTable → List ℕ → Except String (List ℤ × ConfigTable)
  | t, [] => .ok ([], t)
  | t, id :: rest =>
    match initVisPred t id with
    | .error e => .error e
    | .ok (b, t1) =>
      match initVisFilter t1 rest with
      | .error e => .error e
      | .ok (l, t2) => .ok ((if b then (id : ℤ) :: l else l), t2)

/-- Embedding of the initial-visibility block of DynamicRecord.onLoad
(lines 295-308): filter the feature-class keys by the visibility read and
substitute the esri hide-all sentinel -1 when the result is empty. -/
def computeInitVis (t : ConfigTable) (ids : List ℕ) :
    Except String (List ℤ × ConfigTable) :=
  match initVisFilter t ids with
  | .error e => .error e
  | .ok (vis, t1) => .ok ((if vis.isEmpty then [-1] else vis), t1)

/-- Keys of a JavaScript object in first-insertion order: duplicates of an
earlier key are dropped. Stands for Object.keys over the feature-class
table; on the proved paths only emptiness and membership of this list
matter, so the numeric reordering performed by JavaScript engines is not
modelled. -/
def dedupKeys : List ℕ → List ℕ
  | [] => []
  | k :: rest => k :: (dedupKeys rest).filter (fun j => j != k)

/-- Embedding of the subConfigs collation of DynamicRecord.onLoad (lines
122-129): every configured layer entry is copied into the table under its
index, marked defaulted exactly when the config was declared complete. -/
def buildSubConfigs (entries : List SubConfig) (complete : Bool) : ConfigTable :=
  entries.foldl (fun t le => updFun t le.index ⟨le, complete⟩) (fun _ => none)

/-- Outcome of DynamicRecord.onLoad: the updated record state, the final
subConfigs table, and the visible-layer list passed to setVisibleLayers
when the config was declared complete. -/
structure OnLoadResult where
  record : DynamicRecordState
  subConfigs : ConfigTable
  visibleApplied : Option (List ℤ)

/-- Embedding of DynamicRecord.onLoad (dynamicRecord.js, lines 107-310):
collate the sub-configs, build the child tree from the configured
non-stateOnly entries, attach feature classes for the reported indexes
(rebinding their proxies), and, when the config was declared complete,
compute and apply the initial visible-layer list. The featKeys of the
attach loop stand for Object.keys of the feature-class table; only their
emptiness and membership matter on the paths proved below, so their order
is not significant. -/
def dynOnLoad (fuel : ℕ) (s : DynamicRecordState) (entries : List SubConfig)
    (configIsComplete : Bool) (infos : ℕ → Option LayerInfo)
    (serverIndexes : List ℕ) : Except String OnLoadResult :=
  let t0 := buildSubConfigs entries configIsComplete
  let ctx0 : LoadCtx := ⟨t0, s.nextProxyId, s.proxies⟩
  match processTopEntries fuel infos entries ctx0 with
  | .error e => .error e
  | .ok (tree, ctx1) =>
    let ar := attachFeatClasses ctx1 s.featClasses [] serverIndexes
    if configIsComplete then
      match computeInitVis ar.ctx.subConfigs (dedupKeys ar.featKeys) with
      | .error e => .error e
      | .ok (vis, t2) =>
        .ok ⟨{ nextProxyId := ar.ctx.nextProxyId, proxies := ar.ctx.proxies,
               childTree := some tree, featClasses := ar.featClasses },
             t2, some vis⟩
    else
      .ok ⟨{ nextProxyId := ar.ctx.nextProxyId, proxies := ar.ctx.proxies,
             childTree := some tree, featClasses := ar.featClasses },
           ar.ctx.subConfigs, none⟩

/-- Embedding of DynamicRecord.getChildTree (dynamicRecord.js, lines
341-347): the built tree if the load handler has produced one (an empty
array is still truthy), and a thrown error before that. -/
def getChildTree (s : DynamicRecordState) : Except String (List TreeNode) :=
  match s.childTree with
  | some t => .ok t
  | none => .error "Called getChildTree before layer is loaded"

/-- Feature class entry of a FeatureRecord: the placeholder set up by the
constructor, or the attributed feature class set up by onLoad
(src/unnamed/part_001). -/
inductive FeatFC where
  | placeholderFC (name : String)
  | attribFC (idx : ℕ)
deriving DecidableEq

/-- State of a FeatureRecord as claim C10 observes it: the default
feature-class key (this._defaultFC) and the feature-class table
(this._featClasses). -/
structure FeatureRecordState where
  defaultFC : ℕ
  featClasses : ℕ → Option FeatFC

/-- Embedding of the FeatureRecord constructor (src/unnamed/part_001, lines
27-41): the default index is the key zero and the table maps it to a
placeholder feature class named after the layer. -/
def featureRecordNew (layerName : String) : FeatureRecordState :=
  { defaultFC := 0,
    featClasses := updFun (fun _ => none) 0 (FeatFC.placeholderFC layerName) }

/-- Embedding of FeatureRecord.onLoad (src/unnamed/part_001, lines 85-110):
the first index reported by the attribute bundle becomes the default index
and receives an attributed feature class. The source reads
attributeBundle.indexes[0] and assumes a non-empty index list; the model
leaves the state unchanged for an empty one. -/
def featureRecordOnLoad (s : FeatureRecordState) (indexes : List ℕ) :
    FeatureRecordState :=
  match indexes with
  | [] => s
  | idx :: _ =>
    { defaultFC := idx,
      featClasses := updFun s.featClasses idx (FeatFC.attribFC idx) }

/-- Remote hierarchy for the C8 and C9 concrete runs: node 1 groups nodes 2
and 3, node 3 groups node 4, nodes 2 and 4 are leaves. -/
def c8Infos : ℕ → Option LayerInfo := fun i =>
  if i = 1 then some ⟨1, "One", [2, 3]⟩
  else if i = 2 then some ⟨2, "Two", []⟩
  else if i = 3 then some ⟨3, "Three", [4]⟩
  else if i = 4 then some ⟨4, "Four", []⟩
  else none

/-- Configuration naming only index 1 (no name, no state, no outfields, not
stateOnly) for the C8 and C9 concrete runs. -/
def c8Entry : SubConfig :=
  { name := "", state := none, outfields := none, index := 1,
    stateOnly := false }

/-- Configured entry for the C7 runs: fully specified, visible. -/
def c7Entry : SubConfig :=
  { name := "Zero", state := some ⟨1, true, true⟩, outfields := some "*",
    index := 0, stateOnly := false }

/-- Remote hierarchy for the C7 runs: the single leaf 0. -/
def c7Infos : ℕ → Option LayerInfo := fun i =>
  if i = 0 then some ⟨0, "Zero", []⟩ else none

/-- Proxy-cache evolution relation: every cached proxy object survives with
its identity unchanged (only the object state may have been mutated). -/
def ProxPres (p q : ℕ → Option ProxyEntry) : Prop :=
  ∀ j pe, p j = some pe → ∃ obj2, q j = some ⟨pe.pid, obj2⟩

/-- The load-handler run used by the C1 witness, starting from a record that
already handed out a proxy for index 2 before load. -/
def c1LoadRun : Except String OnLoadResult :=
  dynOnLoad 5 (getChildProxy freshDynamicRecord 2).2 [c8Entry] false c8Infos [2, 4]

/-- The successful result of the C1 witness run. -/
def c1Res : OnLoadResult :=
  (c1LoadRun.toOption).getD
    ⟨freshDynamicRecord, (fun _ => none), none⟩

/-- Server-side sub-layer hierarchy as an explicit forest: empty, or a node
carrying its id, its server name, its child forest and the remaining
siblings. -/
inductive ServerForest where
  | nil : ServerForest
  | node (id : ℕ) (name : String) (children : ServerForest) (rest : ServerForest)

/-- Ids of the roots of a forest, in order. -/
def rootIds : ServerForest → List ℕ
  | .nil => []
  | .node i _ _ rest => i :: rootIds rest

/-- All ids of a forest, root before subtree before later siblings. -/
def allIds : ServerForest → List ℕ
  | .nil => []
  | .node i _ ch rest => i :: (allIds ch ++ allIds rest)

/-- Height of a forest (zero for the empty forest). -/
def forestHeight : ServerForest → ℕ
  | .nil => 0
  | .node _ _ ch rest => max (forestHeight ch + 1) (forestHeight rest)

/-- The flat layerInfos array encodes the forest: every node is stored under
its id with its server name and the ids of its children in order. -/
def encodesF (infos : ℕ → Option LayerInfo) : ServerForest → Bool
  | .nil => true
  | .node i n ch rest =>
    (decide (infos i = some ⟨i, n, rootIds ch⟩) && encodesF infos ch)
      && encodesF infos rest

/-- The resolved display name of a node: the name of the sub-config fetched
for its id with its server name, read against a given table. -/
def resolvedName (t : ConfigTable) (id : ℕ) (serverName : String) : String :=
  ((fetchSubConfig t id serverName).1).name

/-- Stated from the words of the specification and claim C8: the mirror of a
server forest, in which every node with sub-layers becomes a group node
carrying its index, its resolved name and its mirrored children in server
order, and every node without sub-layers becomes a leaf node carrying only
its index. -/
def mirrorF (t : ConfigTable) : ServerForest → List TreeNode
  | .nil => []
  | .node i n ch rest =>
    (match ch with
     | .nil => TreeNode.leaf i
     | .node _ _ _ _ =>
        TreeNode.group i (resolvedName t i n) (mirrorF t ch)) :: mirrorF t rest

/-- The mirror of a single node with child forest ch. -/
def mirrorNode (t : ConfigTable) (i : ℕ) (n : String) (ch : ServerForest) :
    TreeNode :=
  match ch with
  | .nil => TreeNode.leaf i
  | .node _ _ _ _ => TreeNode.group i (resolvedName t i n) (mirrorF t ch)

/-- Property of the tree walk at one node: on a faithfully encoded node with
distinct ids and enough fuel, processLayerInfo returns the mirror of the
node read against the incoming table, and writes the table only at the ids
of the node and its subtree. -/
def TreeWalkNode (fuel : ℕ) : Prop :=
  ∀ (infos : ℕ → Option LayerInfo) (i : ℕ) (n : String) (ch : ServerForest)
    (ctx : LoadCtx),
    infos i = some ⟨i, n, rootIds ch⟩ →
    encodesF infos ch = true →
    (i :: allIds ch).Nodup →
    forestHeight ch + 1 ≤ fuel →
    ∃ ctx2, processLayerInfo fuel infos ⟨i, n, rootIds ch⟩ ctx =
        .ok (mirrorNode ctx.subConfigs i n ch, ctx2)
      ∧ ∀ j, j ∉ i :: allIds ch → ctx2.subConfigs j = ctx.subConfigs j

/-- Property of the tree walk over sibling lists. -/
def TreeWalkForest (fuel : ℕ) : Prop :=
  ∀ (infos : ℕ → Option LayerInfo) (f : ServerForest) (ctx : LoadCtx),
    encodesF infos f = true →
    (allIds f).Nodup →
    forestHeight f ≤ fuel →
    ∃ ctx2, processSubIds (processLayerInfo fuel infos) infos (rootIds f) ctx =
        .ok (mirrorF ctx.subConfigs f, ctx2)
      ∧ ∀ j, j ∉ allIds f → ctx2.subConfigs j = ctx.subConfigs j

/-- Child forest of node 1 in the concrete C8 hierarchy: node 2 (a leaf) and
node 3 grouping the leaf 4. -/
def c8Forest : ServerForest :=
  .node 2 "Two" .nil (.node 3 "Three" (.node 4 "Four" .nil .nil) .nil)

theorem updFun_same {α : Type} (f : ℕ → Option α) (k : ℕ) (v : α) :
    updFun f k v k = some v := by
  simp [updFun]

theorem updFun_other {α : Type} (f : ℕ → Option α) (k j : ℕ) (v : α) (h : j ≠ k) :
    updFun f k v j = f j := by
  simp [updFun, h]

/-- C2: for every feature class scale set and every map scale, the off-scale
check follows the rule of the claim: the class is off scale exactly when the
current scale is below a nonzero maxScale, or otherwise above a nonzero
minScale; the direction flag is false exactly in the first (zoom-in range
violated) case and true in the second; on-scale results carry a false flag.
The three concrete cases of the claim are also evaluated: with minScale 0 and
maxScale 5000, scale 4000 gives off scale with the flag false and scale 6000
is on scale; with minScale 10000 and maxScale 0, scale 20000 gives off scale
with the flag true. -/
theorem c2_scale_visibility :
    (∀ (ss : ScaleSet) (ms : ℚ),
      ((isOffScale ss ms).offScale = true ↔
        ((ms < ss.maxScale ∧ ss.maxScale ≠ 0) ∨
         (¬(ms < ss.maxScale ∧ ss.maxScale ≠ 0) ∧ ms > ss.minScale ∧ ss.minScale ≠ 0))) ∧
      ((isOffScale ss ms).zoomIn = false ↔
        ((ms < ss.maxScale ∧ ss.maxScale ≠ 0) ∨
         ¬((ms < ss.maxScale ∧ ss.maxScale ≠ 0) ∨ (ms > ss.minScale ∧ ss.minScale ≠ 0)))))
    ∧ isOffScale ⟨0, 5000⟩ 4000 = ⟨true, false⟩
    ∧ isOffScale ⟨0, 5000⟩ 6000 = ⟨false, false⟩
    ∧ isOffScale ⟨10000, 0⟩ 20000 = ⟨true, true⟩ := by
  refine ⟨fun ss ms => ?_, by decide, by decide, by decide⟩
  unfold isOffScale
  split_ifs with h1 h2
  · constructor <;> simp [h1]
  · constructor <;> simp [h1, h2]
  · constructor <;> simp [h1, h2]

/-- C3: the code returns the empty string for a match that sits one level
below the top of the catalog, while the claimed pre-order lookup returns its
title T, because the recursive crawl result is discarded (only its truthiness
is used, to stop the sibling iteration). Matches at the top level and the
no-match sentinel do behave as claimed. -/
theorem c3_wms_title_eval :
    getWMSLayerTitle c3Tree "target" = ""
    ∧ claimWmsTitle c3Tree "target" = "T"
    ∧ getWMSLayerTitle c3Tree "target" ≠ claimWmsTitle c3Tree "target"
    ∧ getWMSLayerTitle [WmsNode.mk "target" "T2" []] "target" = "T2"
    ∧ getWMSLayerTitle c3Tree "missing" = ""
    ∧ claimWmsTitle c3Tree "missing" = "" := by
  refine ⟨?_, ?_, ?_, ?_, ?_, ?_⟩ <;>
    simp [getWMSLayerTitle, claimWmsTitle, crawlSubLayers, wmsPreorder, c3Tree,
      WmsNode.name, WmsNode.title]

/-- C4 counterexample: with a configured name CFG and a server-side title SRV
both present, the code names the legend entry CFG, not SRV as the claimed
fallback order (server title first) would require. -/
theorem c4_name_order_counterexample :
    wmsEntryName c4Layer c4Entry = "CFG"
    ∧ claimWmsEntryName c4Layer c4Entry = "SRV"
    ∧ wmsSymbologyNames c4Layer [c4Entry] = ["CFG"]
    ∧ wmsEntryName c4Layer c4Entry ≠ claimWmsEntryName c4Layer c4Entry := by
  refine ⟨?_, ?_, ?_, ?_⟩ <;>
    simp [wmsEntryName, claimWmsEntryName, wmsSymbologyNames, jsOrStr,
      getWMSLayerTitle, crawlSubLayers, c4Layer, c4Entry, WmsNode.title]

/-- C4 as amended: each legend entry display name is the configured name when
one is present; otherwise the server-side catalog title when one is found;
otherwise the raw configured identifier. The legend array holds these names
in configuration order. -/
theorem c4_name_fallback :
    ∀ (layer : List WmsNode) (le : WmsConfigEntry),
      (le.name ≠ "" → wmsEntryName layer le = le.name)
      ∧ (le.name = "" → getWMSLayerTitle layer le.id ≠ "" →
          wmsEntryName layer le = getWMSLayerTitle layer le.id)
      ∧ (le.name = "" → getWMSLayerTitle layer le.id = "" →
          wmsEntryName layer le = le.id)
      ∧ ∀ (entries : List WmsConfigEntry) (i : ℕ),
          (wmsSymbologyNames layer entries)[i]? =
            (entries[i]?).map (fun e => wmsEntryName layer e) := by
  intro layer le
  refine ⟨fun h => ?_, fun h1 h2 => ?_, fun h1 h2 => ?_, fun entries i => ?_⟩
  · simp [wmsEntryName, jsOrStr, h]
  · simp [wmsEntryName, jsOrStr, h1, h2]
  · simp [wmsEntryName, jsOrStr, h1, h2]
  · simp [wmsSymbologyNames]

/-- Witness for the amended C4 theorem at the concrete counterexample input. -/
theorem c4_name_fallback_witness :
    wmsEntryName c4Layer c4Entry = "CFG" :=
  (c4_name_fallback c4Layer c4Entry).1 (by decide)

/-- C5 counterexample: the first fetch of a not-yet-defaulted entry whose
state is present (visibility true, query true) replaces that state with the
dummy state, so defaulting does not fill only the missing fields as the claim
states; name and outfields, which are present, are kept. -/
theorem c5_state_overwrite_counterexample :
    ((fetchSubConfig c5Table 5 "SERVER").1).state = some dummyState
    ∧ c5Config.state = some ⟨1, true, true⟩
    ∧ ((fetchSubConfig c5Table 5 "SERVER").1).state ≠ c5Config.state
    ∧ ((fetchSubConfig c5Table 5 "SERVER").1).name = "N"
    ∧ ((fetchSubConfig c5Table 5 "SERVER").1).outfields = some "A,B" := by
  refine ⟨rfl, rfl, by decide, rfl, rfl⟩

/-- C5 as amended: on the first fetch of a not-yet-defaulted entry, a falsy
name is filled from the server-reported name, absent outfields are filled
with the wildcard, present name and outfields are kept, index and stateOnly
are kept, but the state is always replaced with the fixed dummy state
(opacity 1, visibility false, query disabled) whether or not it was present;
the entry is then marked defaulted. An index with no configuration entry at
all gets a fully defaulted entry rather than an error. -/
theorem c5_defaulting :
    ∀ (t : ConfigTable) (id : ℕ) (serverName : String),
      (∀ e, t id = some e → e.defaulted = false →
        ((fetchSubConfig t id serverName).1).state = some dummyState
        ∧ (e.config.outfields = none →
            ((fetchSubConfig t id serverName).1).outfields = some "*")
        ∧ (∀ o, e.config.outfields = some o →
            ((fetchSubConfig t id serverName).1).outfields = some o)
        ∧ (e.config.name = "" →
            ((fetchSubConfig t id serverName).1).name = serverName)
        ∧ (e.config.name ≠ "" →
            ((fetchSubConfig t id serverName).1).name = e.config.name)
        ∧ ((fetchSubConfig t id serverName).1).index = e.config.index
        ∧ ((fetchSubConfig t id serverName).1).stateOnly = e.config.stateOnly
        ∧ (fetchSubConfig t id serverName).2 id =
            some ⟨(fetchSubConfig t id serverName).1, true⟩)
      ∧ (t id = none →
        (fetchSubConfig t id serverName).1 =
          ⟨serverName, some dummyState, some "*", id, true⟩
        ∧ (fetchSubConfig t id serverName).2 id =
            some ⟨⟨serverName, some dummyState, some "*", id, true⟩, true⟩) := by
  intro t id serverName
  constructor
  · intro e he hd
    refine ⟨?_, ?_, ?_, ?_, ?_, ?_, ?_, ?_⟩
    · simp [fetchSubConfig, he, hd]
    · intro h; simp [fetchSubConfig, he, hd, h]
    · intro o h; simp [fetchSubConfig, he, hd, h]
    · intro h; simp [fetchSubConfig, he, hd, h]
    · intro h; simp [fetchSubConfig, he, hd, h]
    · simp [fetchSubConfig, he, hd]
    · simp [fetchSubConfig, he, hd]
    · simp [fetchSubConfig, he, hd, updFun_same]
  · intro he
    constructor
    · simp [fetchSubConfig, he]
    · simp [fetchSubConfig, he, updFun_same]

/-- Witness for the amended C5 theorem: at the concrete counterexample table
the fetched config carries the dummy state. -/
theorem c5_defaulting_witness :
    ((fetchSubConfig c5Table 5 "SERVER").1).state = some dummyState :=
  ((c5_defaulting c5Table 5 "SERVER").1 ⟨c5Config, false⟩ rfl rfl).1

/-- Fetching an already-defaulted entry returns its config and leaves the
table untouched. -/
theorem fetchSubConfig_defaulted (t : ConfigTable) (id : ℕ) (s : String)
    (e : SubConfigEntry) (he : t id = some e) (hd : e.defaulted = true) :
    fetchSubConfig t id s = (e.config, t) := by
  simp [fetchSubConfig, he, hd]

/-- After any fetch, the table holds a defaulted entry at the fetched index
whose config is exactly the returned config. -/
theorem fetchSubConfig_marks (t : ConfigTable) (id : ℕ) (s : String) :
    ∃ e1, (fetchSubConfig t id s).2 id = some e1 ∧ e1.defaulted = true
      ∧ e1.config = (fetchSubConfig t id s).1 := by
  match h : t id with
  | none =>
    refine ⟨⟨(fetchSubConfig t id s).1, true⟩, ?_, rfl, rfl⟩
    simp [fetchSubConfig, h, updFun_same]
  | some e0 =>
    by_cases hd : e0.defaulted = true
    · exact ⟨e0, by simp [fetchSubConfig, h, hd], hd, by simp [fetchSubConfig, h, hd]⟩
    · refine ⟨⟨(fetchSubConfig t id s).1, true⟩, ?_, rfl, rfl⟩
      simp [fetchSubConfig, h, hd, updFun_same]

/-- C6: the fetch-or-create path is idempotent. A second fetch for the same
index returns the identical config and leaves the table unchanged (so the
defaulting logic never re-runs), after any fetch the stored entry is marked
defaulted with exactly the returned config, and a fetch of an
already-defaulted entry returns it unchanged without touching the table. -/
theorem c6_fetch_idempotent :
    ∀ (t : ConfigTable) (id : ℕ) (s1 s2 : String),
      fetchSubConfig (fetchSubConfig t id s1).2 id s2 =
        ((fetchSubConfig t id s1).1, (fetchSubConfig t id s1).2)
      ∧ (∃ e1, (fetchSubConfig t id s1).2 id = some e1 ∧ e1.defaulted = true
          ∧ e1.config = (fetchSubConfig t id s1).1)
      ∧ (∀ e0, t id = some e0 → e0.defaulted = true →
          fetchSubConfig t id s1 = (e0.config, t)) := by
  intro t id s1 s2
  obtain ⟨e1, he1, hd1, hc1⟩ := fetchSubConfig_marks t id s1
  refine ⟨?_, ⟨e1, he1, hd1, hc1⟩, fun e0 he hd => fetchSubConfig_defaulted t id s1 e0 he hd⟩
  rw [fetchSubConfig_defaulted (fetchSubConfig t id s1).2 id s2 e1 he1 hd1, hc1]

/-- Witness for C6: fetching an already-defaulted concrete entry returns its
config and the untouched table. -/
theorem c6_fetch_idempotent_witness :
    fetchSubConfig c6Table 6 "S" = (c6Entry.config, c6Table) :=
  (c6_fetch_idempotent c6Table 6 "S" "S").2.2 c6Entry rfl rfl

/-- C10: a FeatureRecord always has a feature class at its default index.
From construction that entry is a placeholder named after the layer; after
the load handler runs with a non-empty reported index list, the default
index is the first reported index and the entry there is the attributed
feature class; dispatch through the default index finds an entry before and
after load. -/
theorem c10_default_fc_always_present :
    ∀ (layerName : String) (indexes : List ℕ),
      (featureRecordNew layerName).featClasses (featureRecordNew layerName).defaultFC
        = some (FeatFC.placeholderFC layerName)
      ∧ (∀ i rest, indexes = i :: rest →
          (featureRecordOnLoad (featureRecordNew layerName) indexes).defaultFC = i
          ∧ (featureRecordOnLoad (featureRecordNew layerName) indexes).featClasses i
              = some (FeatFC.attribFC i))
      ∧ ((featureRecordOnLoad (featureRecordNew layerName) indexes).featClasses
          ((featureRecordOnLoad (featureRecordNew layerName) indexes).defaultFC)).isSome
          = true := by
  intro layerName indexes
  refine ⟨rfl, ?_, ?_⟩
  · intro i rest h
    subst h
    exact ⟨rfl, by simp [featureRecordOnLoad, updFun_same]⟩
  · match indexes with
    | [] => simp [featureRecordOnLoad, featureRecordNew, updFun_same]
    | i :: rest => simp [featureRecordOnLoad, updFun_same]

/-- Witness for C10 at a concrete layer name and reported index list. -/
theorem c10_default_fc_always_present_witness :
    (featureRecordOnLoad (featureRecordNew "Lakes") [3]).defaultFC = 3
    ∧ (featureRecordOnLoad (featureRecordNew "Lakes") [3]).featClasses 3
        = some (FeatFC.attribFC 3) :=
  (c10_default_fc_always_present "Lakes" [3]).2.1 3 [] rfl

/-- C9: calling getChildTree on a freshly constructed DynamicRecord throws
the precondition error; after any successful run of the load handler the
record holds a built child tree and getChildTree returns it. -/
theorem c9_child_tree_precondition :
    getChildTree freshDynamicRecord =
      Except.error "Called getChildTree before layer is loaded"
    ∧ ∀ (fuel : ℕ) (s : DynamicRecordState) (entries : List SubConfig)
        (complete : Bool) (infos : ℕ → Option LayerInfo)
        (serverIndexes : List ℕ) (res : OnLoadResult),
        dynOnLoad fuel s entries complete infos serverIndexes = .ok res →
        ∃ tr, res.record.childTree = some tr ∧ getChildTree res.record = .ok tr := by
  constructor
  · rfl
  · intro fuel s entries complete infos serverIndexes res h
    simp only [dynOnLoad] at h
    split at h
    · exact absurd h (by simp)
    · split at h
      · split at h
        · exact absurd h (by simp)
        · injection h with h2
          subst h2
          exact ⟨_, rfl, rfl⟩
      · injection h with h2
        subst h2
        exact ⟨_, rfl, rfl⟩

/-- Witness for C9: a concrete load run produces the concrete child tree and
getChildTree returns it. -/
theorem c9_child_tree_precondition_witness :
    ∃ res, dynOnLoad 5 freshDynamicRecord [c8Entry] false c8Infos [2, 4] = .ok res
      ∧ ∃ tr, res.record.childTree = some tr ∧ getChildTree res.record = .ok tr := by
  obtain ⟨res, hres⟩ :
      ∃ res, dynOnLoad 5 freshDynamicRecord [c8Entry] false c8Infos [2, 4] = .ok res :=
    ⟨_, rfl⟩
  exact ⟨res, hres,
    c9_child_tree_precondition.2 5 freshDynamicRecord [c8Entry] false c8Infos [2, 4] res hres⟩

/-- C7: with a fully complete configuration whose only (visible) sub-layer
is reported by the server, the load handler throws a TypeError instead of
applying the visible-index list, because the initial-visibility filter reads
the property config of the object returned by fetchSubConfig, which is the
sub-config itself and has no such property; with no created feature classes
the filter never runs and the applied list is exactly the hide-all sentinel
list containing -1, never the empty list. -/
theorem c7_initvis_eval :
    dynOnLoad 5 freshDynamicRecord [c7Entry] true c7Infos [0] =
      .error "TypeError: Cannot read property state of undefined"
    ∧ (dynOnLoad 5 freshDynamicRecord [c7Entry] true c7Infos []).map
        (fun r => r.visibleApplied) = .ok (some [-1]) := by
  exact ⟨rfl, rfl⟩

theorem proxPres_refl (p : ℕ → Option ProxyEntry) : ProxPres p p :=
  fun _ pe h => ⟨pe.obj, h⟩

theorem proxPres_trans {p q r : ℕ → Option ProxyEntry}
    (h1 : ProxPres p q) (h2 : ProxPres q r) : ProxPres p r := by
  intro j pe h
  obtain ⟨o2, h'⟩ := h1 j pe h
  obtain ⟨o3, h''⟩ := h2 j ⟨pe.pid, o2⟩ h'
  exact ⟨o3, h''⟩

/-- Updating the cache at one key with an entry that keeps the pid of the
entry previously cached there preserves all identities. -/
theorem proxPres_updFun (p : ℕ → Option ProxyEntry) (k : ℕ) (pe0 : ProxyEntry)
    (obj1 : LayerInterface) (hk : p k = some pe0) :
    ProxPres p (updFun p k ⟨pe0.pid, obj1⟩) := by
  intro j pe h
  by_cases hj : j = k
  · subst hj
    rw [hk] at h
    injection h with h'
    subst h'
    exact ⟨obj1, updFun_same _ _ _⟩
  · exact ⟨pe.obj, by rw [updFun_other _ _ _ _ hj]; exact h⟩

/-- Writing the cache at a key that was empty preserves all identities. -/
theorem proxPres_updFun_new (p : ℕ → Option ProxyEntry) (k : ℕ)
    (pe1 : ProxyEntry) (hk : p k = none) :
    ProxPres p (updFun p k pe1) := by
  intro j pe h
  by_cases hj : j = k
  · subst hj; rw [hk] at h; cases h
  · exact ⟨pe.obj, by rw [updFun_other _ _ _ _ hj]; exact h⟩

/-- The sub-layer iteration keeps every cached proxy identity, provided the
per-node processing does. -/
theorem processSubIds_proxies
    (procOne : LayerInfo → LoadCtx → Except String (TreeNode × LoadCtx))
    (infos : ℕ → Option LayerInfo)
    (hp : ∀ li ctx nd ctx2, procOne li ctx = .ok (nd, ctx2) →
      ProxPres ctx.proxies ctx2.proxies) :
    ∀ (ids : List ℕ) (ctx : LoadCtx) (nds : List TreeNode) (ctx2 : LoadCtx),
      processSubIds procOne infos ids ctx = .ok (nds, ctx2) →
      ProxPres ctx.proxies ctx2.proxies := by
  intro ids
  induction ids with
  | nil =>
    intro ctx nds ctx2 h
    simp only [processSubIds] at h
    injection h with h'
    injection h' with h1 h2
    subst h2
    exact proxPres_refl _
  | cons slid rest ih =>
    intro ctx nds ctx2 h
    simp only [processSubIds] at h
    cases h1 : infos slid with
    | none => rw [h1] at h; simp at h
    | some cli =>
      rw [h1] at h
      simp only [] at h
      cases h2 : procOne cli ctx with
      | error e => rw [h2] at h; simp at h
      | ok v =>
        obtain ⟨nd, ctx1⟩ := v
        rw [h2] at h
        simp only [] at h
        cases h3 : processSubIds procOne infos rest ctx1 with
        | error e => rw [h3] at h; simp at h
        | ok w =>
          obtain ⟨nds1, ctx2a⟩ := w
          rw [h3] at h
          simp only [] at h
          injection h with h'
          injection h' with h4 h5
          subst h5
          exact proxPres_trans (hp _ _ _ _ h2) (ih _ _ _ h3)

/-- The recursive tree walk of the load handler keeps every cached proxy
identity: existing leaf proxies are updated in place, new proxies are only
written at indices that had none. -/
theorem processLayerInfo_proxies :
    ∀ (fuel : ℕ) (infos : ℕ → Option LayerInfo) (li : LayerInfo)
      (ctx : LoadCtx) (nd : TreeNode) (ctx2 : LoadCtx),
      processLayerInfo fuel infos li ctx = .ok (nd, ctx2) →
      ProxPres ctx.proxies ctx2.proxies := by
  intro fuel
  induction fuel with
  | zero =>
    intro infos li ctx nd ctx2 h
    simp [processLayerInfo] at h
  | succ f ih =>
    intro infos li ctx nd ctx2 h
    rw [processLayerInfo] at h
    by_cases hemp : li.subLayerIds.isEmpty
    · rw [if_pos hemp] at h
      cases hp : ctx.proxies li.id with
      | some pe0 =>
        simp only [hp] at h
        injection h with h'
        injection h' with h1 h2
        subst h2
        exact proxPres_updFun _ _ _ _ hp
      | none =>
        simp only [hp] at h
        injection h with h'
        injection h' with h1 h2
        subst h2
        exact proxPres_updFun_new _ _ _ hp
    · rw [if_neg hemp] at h
      cases hs : processSubIds (processLayerInfo f infos) infos li.subLayerIds
          { ctx with subConfigs := (fetchSubConfig ctx.subConfigs li.id li.name).2 } with
      | error e => rw [hs] at h; simp at h
      | ok w =>
        obtain ⟨nds, ctx2a⟩ := w
        rw [hs] at h
        simp only [] at h
        injection h with h'
        injection h' with h1 h2
        subst h2
        exact processSubIds_proxies (processLayerInfo f infos) infos
          (fun li2 c2 n2 c3 hh => ih infos li2 c2 n2 c3 hh)
          li.subLayerIds
          { ctx with subConfigs := (fetchSubConfig ctx.subConfigs li.id li.name).2 }
          nds ctx2a hs

/-- The top-level iteration over configured entries keeps every cached
proxy identity. -/
theorem processTopEntries_proxies :
    ∀ (fuel : ℕ) (infos : ℕ → Option LayerInfo) (entries : List SubConfig)
      (ctx : LoadCtx) (nds : List TreeNode) (ctx2 : LoadCtx),
      processTopEntries fuel infos entries ctx = .ok (nds, ctx2) →
      ProxPres ctx.proxies ctx2.proxies := by
  intro fuel infos entries
  induction entries with
  | nil =>
    intro ctx nds ctx2 h
    simp only [processTopEntries] at h
    injection h with h'
    injection h' with h1 h2
    subst h2
    exact proxPres_refl _
  | cons le rest ih =>
    intro ctx nds ctx2 h
    simp only [processTopEntries] at h
    by_cases hso : le.stateOnly = true
    · rw [if_pos hso] at h
      exact ih _ _ _ h
    · rw [if_neg hso] at h
      cases h1 : infos le.index with
      | none => rw [h1] at h; simp at h
      | some li =>
        rw [h1] at h
        simp only [] at h
        cases h2 : processLayerInfo fuel infos li ctx with
        | error e => rw [h2] at h; simp at h
        | ok v =>
          obtain ⟨nd, ctx1⟩ := v
          rw [h2] at h
          simp only [] at h
          cases h3 : processTopEntries fuel infos rest ctx1 with
          | error e => rw [h3] at h; simp at h
          | ok w =>
            obtain ⟨nds1, ctx2a⟩ := w
            rw [h3] at h
            simp only [] at h
            injection h with h'
            injection h' with h4 h5
            subst h5
            exact proxPres_trans (processLayerInfo_proxies _ _ _ _ _ _ h2) (ih _ _ _ h3)

/-- The attribute-bundle loop never writes the subConfigs table. -/
theorem attachFeatClasses_subConfigs :
    ∀ (list : List ℕ) (ctx : LoadCtx) (fcs : ℕ → Option DynamicFCData)
      (keys : List ℕ),
      (attachFeatClasses ctx fcs keys list).ctx.subConfigs = ctx.subConfigs := by
  intro list
  induction list with
  | nil => intro ctx fcs keys; rfl
  | cons idx rest ih =>
    intro ctx fcs keys
    simp only [attachFeatClasses]
    cases hc : ctx.subConfigs idx with
    | none => exact ih _ _ _
    | some subC =>
      dsimp only
      by_cases hd : subC.defaulted = true
      · rw [if_pos hd, ih]
        cases ctx.proxies idx with
        | some pe => rfl
        | none => rfl
      · rw [if_neg hd]
        exact ih _ _ _

/-- The attribute-bundle loop keeps every cached proxy identity. -/
theorem attachFeatClasses_proxPres :
    ∀ (list : List ℕ) (ctx : LoadCtx) (fcs : ℕ → Option DynamicFCData)
      (keys : List ℕ),
      ProxPres ctx.proxies (attachFeatClasses ctx fcs keys list).ctx.proxies := by
  intro list
  induction list with
  | nil => intro ctx fcs keys; exact proxPres_refl _
  | cons idx rest ih =>
    intro ctx fcs keys
    simp only [attachFeatClasses]
    cases hc : ctx.subConfigs idx with
    | none => exact ih _ _ _
    | some subC =>
      dsimp only
      by_cases hd : subC.defaulted = true
      · rw [if_pos hd]
        cases hp : ctx.proxies idx with
        | some pe =>
          dsimp only
          exact proxPres_trans (proxPres_updFun ctx.proxies idx pe
              (pe.obj.convertToDynamicLeaf (mkDynamicFC idx subC.config)) hp)
            (ih { ctx with proxies := (updFun ctx.proxies idx
                ⟨pe.pid, pe.obj.convertToDynamicLeaf (mkDynamicFC idx subC.config)⟩) }
              (updFun fcs idx (mkDynamicFC idx subC.config)) (keys ++ [idx]))
        | none =>
          dsimp only
          exact ih _ _ _
      · rw [if_neg hd]
        exact ih _ _ _

/-- The attribute-bundle loop leaves indices outside the reported list
completely untouched. -/
theorem attachFeatClasses_untouched :
    ∀ (list : List ℕ) (ctx : LoadCtx) (fcs : ℕ → Option DynamicFCData)
      (keys : List ℕ) (j : ℕ), j ∉ list →
      (attachFeatClasses ctx fcs keys list).ctx.proxies j = ctx.proxies j
      ∧ (attachFeatClasses ctx fcs keys list).featClasses j = fcs j := by
  intro list
  induction list with
  | nil => intro ctx fcs keys j _; exact ⟨rfl, rfl⟩
  | cons idx rest ih =>
    intro ctx fcs keys j hj
    have hjx : j ≠ idx := fun h => hj (h ▸ List.mem_cons_self idx rest)
    have hjr : j ∉ rest := fun h => hj (List.mem_cons_of_mem idx h)
    simp only [attachFeatClasses]
    cases hc : ctx.subConfigs idx with
    | none => exact ih _ _ _ _ hjr
    | some subC =>
      dsimp only
      by_cases hd : subC.defaulted = true
      · rw [if_pos hd]
        cases hp : ctx.proxies idx with
        | some pe =>
          dsimp only
          obtain ⟨ha, hb⟩ := ih
            { ctx with proxies := (updFun ctx.proxies idx
                ⟨pe.pid, pe.obj.convertToDynamicLeaf (mkDynamicFC idx subC.config)⟩) }
            (updFun fcs idx (mkDynamicFC idx subC.config)) (keys ++ [idx]) j hjr
          refine ⟨?_, ?_⟩
          · rw [ha]; exact updFun_other _ _ _ _ hjx
          · rw [hb]; exact updFun_other _ _ _ _ hjx
        | none =>
          dsimp only
          obtain ⟨ha, hb⟩ := ih ctx
            (updFun fcs idx (mkDynamicFC idx subC.config)) (keys ++ [idx]) j hjr
          exact ⟨ha, by rw [hb]; exact updFun_other _ _ _ _ hjx⟩
      · rw [if_neg hd]
        exact ih _ _ _ _ hjr

/-- For a reported index with a defaulted sub-config and a cached proxy, the
attribute-bundle loop converts that proxy in place to a dynamic leaf over
the feature class built from the sub-config, and stores that feature class
under the index. -/
theorem attachFeatClasses_converts :
    ∀ (list : List ℕ) (ctx : LoadCtx) (fcs : ℕ → Option DynamicFCData)
      (keys : List ℕ) (i : ℕ) (e : SubConfigEntry) (pe : ProxyEntry),
      ctx.subConfigs i = some e → e.defaulted = true →
      ctx.proxies i = some pe → i ∈ list →
      (attachFeatClasses ctx fcs keys list).ctx.proxies i =
        some ⟨pe.pid, LayerInterface.convertToDynamicLeaf pe.obj (mkDynamicFC i e.config)⟩
      ∧ (attachFeatClasses ctx fcs keys list).featClasses i =
          some (mkDynamicFC i e.config) := by
  intro list
  induction list with
  | nil => intro ctx fcs keys i e pe _ _ _ hm; cases hm
  | cons idx rest ih =>
    intro ctx fcs keys i e pe hce hde hpe hm
    simp only [attachFeatClasses]
    by_cases hix : i = idx
    · subst hix
      rw [hce]
      dsimp only
      rw [if_pos hde, hpe]
      dsimp only
      by_cases hir : i ∈ rest
      · exact ih
          { ctx with proxies := (updFun ctx.proxies i
              ⟨pe.pid, pe.obj.convertToDynamicLeaf (mkDynamicFC i e.config)⟩) }
          (updFun fcs i (mkDynamicFC i e.config)) (keys ++ [i]) i e
          ⟨pe.pid, pe.obj.convertToDynamicLeaf (mkDynamicFC i e.config)⟩
          hce hde (updFun_same _ _ _) hir
      · obtain ⟨ha, hb⟩ := attachFeatClasses_untouched rest
          { ctx with proxies := (updFun ctx.proxies i
              ⟨pe.pid, pe.obj.convertToDynamicLeaf (mkDynamicFC i e.config)⟩) }
          (updFun fcs i (mkDynamicFC i e.config)) (keys ++ [i]) i hir
        refine ⟨?_, ?_⟩
        · rw [ha]; exact updFun_same _ _ _
        · rw [hb]; exact updFun_same _ _ _
    · have hir : i ∈ rest := by
        cases List.mem_cons.mp hm with
        | inl h => exact absurd h hix
        | inr h => exact h
      cases hc : ctx.subConfigs idx with
      | none => exact ih ctx fcs keys i e pe hce hde hpe hir
      | some subC =>
        dsimp only
        by_cases hd : subC.defaulted = true
        · rw [if_pos hd]
          cases hp : ctx.proxies idx with
          | some pe2 =>
            dsimp only
            refine ih _ _ _ i e pe hce hde ?_ hir
            show updFun ctx.proxies idx _ i = some pe
            rw [updFun_other _ _ _ _ hix]
            exact hpe
          | none =>
            dsimp only
            exact ih ctx _ _ i e pe hce hde hpe hir
        · rw [if_neg hd]
          exact ih ctx fcs keys i e pe hce hde hpe hir

/-- C1: a proxy requested before load is created as a placeholder-backed
handle over a fresh empty-named placeholder feature class and cached, so a
repeated request returns the identical handle with no error and its
isPlaceholder is true; after a load run that resolves the index (the index
is reported by the server and its sub-config is defaulted), the handle
cached under that index still has the same identity, reports isPlaceholder
false, is backed by the created feature class, and its name getter reads
from that feature class. -/
theorem c1_child_proxy_lifecycle :
    (∀ (s : DynamicRecordState) (i : ℕ) (pe : ProxyEntry),
      s.proxies i = some pe → getChildProxy s i = (pe, s))
    ∧ (∀ (s : DynamicRecordState) (i : ℕ),
      s.proxies i = none →
        (getChildProxy s i).1.obj =
          ⟨ProxySource.pfc "", true, DispatchKind.placeholderKind⟩
        ∧ (getChildProxy s i).1.obj.isPlaceholder = true
        ∧ (getChildProxy s i).2.proxies i = some (getChildProxy s i).1
        ∧ getChildProxy (getChildProxy s i).2 i =
            ((getChildProxy s i).1, (getChildProxy s i).2))
    ∧ (∀ (fuel : ℕ) (s : DynamicRecordState) (entries : List SubConfig)
        (infos : ℕ → Option LayerInfo) (serverIndexes : List ℕ)
        (res : OnLoadResult) (i : ℕ) (pe : ProxyEntry) (e : SubConfigEntry),
        s.proxies i = some pe →
        dynOnLoad fuel s entries false infos serverIndexes = .ok res →
        i ∈ serverIndexes →
        res.subConfigs i = some e → e.defaulted = true →
        ∃ (pid : ℕ) (d : DynamicFCData),
          pid = pe.pid
          ∧ res.record.proxies i =
              some ⟨pid, ⟨ProxySource.dfc d, false, DispatchKind.dynamicLeafKind⟩⟩
          ∧ res.record.featClasses i = some d
          ∧ (⟨ProxySource.dfc d, false, DispatchKind.dynamicLeafKind⟩ :
              LayerInterface).isPlaceholder = false
          ∧ LayerInterface.getName
              ⟨ProxySource.dfc d, false, DispatchKind.dynamicLeafKind⟩ =
              .ok d.name) := by
  refine ⟨?_, ?_, ?_⟩
  · intro s i pe h
    simp [getChildProxy, h]
  · intro s i h
    refine ⟨?_, ?_, ?_, ?_⟩
    · simp [getChildProxy, h, LayerInterface.create, LayerInterface.convertToPlaceholder]
    · simp [getChildProxy, h, LayerInterface.create, LayerInterface.convertToPlaceholder]
    · simp [getChildProxy, h, updFun_same]
    · simp [getChildProxy, h, updFun_same]
  · intro fuel s entries infos serverIndexes res i pe e hpe hload hmem hsce hsd
    simp only [dynOnLoad] at hload
    cases hpt : processTopEntries fuel infos entries
        ⟨buildSubConfigs entries false, s.nextProxyId, s.proxies⟩ with
    | error err => rw [hpt] at hload; simp at hload
    | ok v =>
      obtain ⟨tree, ctx1⟩ := v
      rw [hpt] at hload
      dsimp only at hload
      rw [if_neg (by simp)] at hload
      injection hload with h2
      subst h2
      dsimp only at hsce
      rw [attachFeatClasses_subConfigs serverIndexes ctx1 s.featClasses []] at hsce
      obtain ⟨obj1, h1⟩ :=
        processTopEntries_proxies fuel infos entries
          ⟨buildSubConfigs entries false, s.nextProxyId, s.proxies⟩ tree ctx1 hpt
          i pe hpe
      obtain ⟨hconv, hfcl⟩ :=
        attachFeatClasses_converts serverIndexes ctx1 s.featClasses [] i e
          ⟨pe.pid, obj1⟩ hsce hsd h1 hmem
      exact ⟨pe.pid, mkDynamicFC i e.config, rfl, hconv, hfcl, rfl, rfl⟩

/-- Witness for C1: in the concrete run, the proxy handed out for index 2
before load keeps its identity and ends up backed by the created feature
class. -/
theorem c1_child_proxy_lifecycle_witness :
    ∃ (pid : ℕ) (d : DynamicFCData),
      pid = (getChildProxy freshDynamicRecord 2).1.pid
      ∧ c1Res.record.proxies 2 =
          some ⟨pid, ⟨ProxySource.dfc d, false, DispatchKind.dynamicLeafKind⟩⟩
      ∧ c1Res.record.featClasses 2 = some d
      ∧ (⟨ProxySource.dfc d, false, DispatchKind.dynamicLeafKind⟩ :
          LayerInterface).isPlaceholder = false
      ∧ LayerInterface.getName
          ⟨ProxySource.dfc d, false, DispatchKind.dynamicLeafKind⟩ = .ok d.name :=
  c1_child_proxy_lifecycle.2.2 5 (getChildProxy freshDynamicRecord 2).2 [c8Entry]
    c8Infos [2, 4] c1Res 2 (getChildProxy freshDynamicRecord 2).1
    ⟨⟨"Two", some dummyState, some "*", 2, true⟩, true⟩
    rfl rfl (by decide) rfl rfl

theorem mirrorF_cons (t : ConfigTable) (i : ℕ) (n : String)
    (ch rest : ServerForest) :
    mirrorF t (.node i n ch rest) = mirrorNode t i n ch :: mirrorF t rest := by
  cases ch <;> rfl

/-- A fetch writes the table only at the fetched index. -/
theorem fetchSubConfig_other (t : ConfigTable) (id : ℕ) (n : String) (j : ℕ)
    (h : j ≠ id) : (fetchSubConfig t id n).2 j = t j := by
  cases ht : t id with
  | none => simp [fetchSubConfig, ht, updFun_other _ _ _ _ h]
  | some e =>
    by_cases hd : e.defaulted = true
    · simp [fetchSubConfig, ht, hd]
    · simp [fetchSubConfig, ht, hd, updFun_other _ _ _ _ h]

/-- The resolved name of an id reads the table only at that id. -/
theorem resolvedName_congr (t t2 : ConfigTable) (id : ℕ) (n : String)
    (h : t id = t2 id) : resolvedName t id n = resolvedName t2 id n := by
  cases ht2 : t2 id with
  | none => simp [resolvedName, fetchSubConfig, h, ht2]
  | some e =>
    by_cases hd : e.defaulted = true <;>
      simp [resolvedName, fetchSubConfig, h, ht2, hd]

/-- The mirror of a forest reads the table only at the ids of the forest. -/
theorem mirrorF_congr :
    ∀ (f : ServerForest) (t t2 : ConfigTable),
      (∀ j, j ∈ allIds f → t j = t2 j) → mirrorF t f = mirrorF t2 f := by
  intro f
  induction f with
  | nil => intro t t2 _; rfl
  | node i n ch rest ihc ihr =>
    intro t t2 h
    have hi : t i = t2 i := h i (by simp [allIds])
    have hch : ∀ j, j ∈ allIds ch → t j = t2 j := fun j hj =>
      h j (by simp [allIds, hj])
    have hrest : ∀ j, j ∈ allIds rest → t j = t2 j := fun j hj =>
      h j (by simp [allIds, hj])
    rw [mirrorF_cons, mirrorF_cons, ihr t t2 hrest]
    cases ch with
    | nil => rfl
    | node a b c dd =>
      simp only [mirrorNode]
      rw [resolvedName_congr t t2 i n hi, ihc t t2 hch]

/-- The leaf branch of processLayerInfo: a node without sub-layers yields a
leaf tree node and only the sub-config fetch touches the table. -/
theorem processLayerInfo_leaf (fuel : ℕ) (infos : ℕ → Option LayerInfo)
    (i : ℕ) (n : String) (ctx : LoadCtx) :
    ∃ ctx2, processLayerInfo (fuel + 1) infos ⟨i, n, []⟩ ctx =
        .ok (TreeNode.leaf i, ctx2)
      ∧ ctx2.subConfigs = (fetchSubConfig ctx.subConfigs i n).2 := by
  cases hp : ctx.proxies i with
  | some pe =>
    refine ⟨{ subConfigs := (fetchSubConfig ctx.subConfigs i n).2,
              nextProxyId := ctx.nextProxyId,
              proxies := updFun ctx.proxies i
                ⟨pe.pid, pe.obj.updateSource
                  (ProxySource.pfc ((fetchSubConfig ctx.subConfigs i n).1).name)⟩ },
            ?_, rfl⟩
    simp only [processLayerInfo, hp]
    rfl
  | none =>
    refine ⟨{ subConfigs := (fetchSubConfig ctx.subConfigs i n).2,
              nextProxyId := ctx.nextProxyId + 1,
              proxies := updFun ctx.proxies i
                ⟨ctx.nextProxyId, (LayerInterface.create ProxySource.nullSrc).convertToPlaceholder
                  ((fetchSubConfig ctx.subConfigs i n).1).name⟩ },
            ?_, rfl⟩
    simp only [processLayerInfo, hp]
    rfl

/-- Induction step at a node: the walk property at one node with fuel
sufficient for its subtree follows from the forest property at one less
fuel. -/
theorem treeWalkNode_succ (fuel : ℕ) (hQ : TreeWalkForest fuel) :
    TreeWalkNode (fuel + 1) := by
  intro infos i n ch ctx hinfo hch hnd hht
  cases ch with
  | nil =>
    obtain ⟨ctx2, hrun, hsub⟩ := processLayerInfo_leaf fuel infos i n ctx
    refine ⟨ctx2, hrun, ?_⟩
    intro j hj
    have hji : j ≠ i := by
      intro hji
      exact hj (by simp [allIds, hji])
    rw [hsub]
    exact fetchSubConfig_other ctx.subConfigs i n j hji
  | node a b c dd =>
    obtain ⟨hiA, hB⟩ := List.nodup_cons.mp hnd
    have hh : forestHeight (ServerForest.node a b c dd) ≤ fuel :=
      Nat.succ_le_succ_iff.mp hht
    obtain ⟨ctx2, hrun, hout⟩ := hQ infos (ServerForest.node a b c dd)
      ⟨(fetchSubConfig ctx.subConfigs i n).2, ctx.nextProxyId, ctx.proxies⟩
      hch hB hh
    have hagree : ∀ j, j ∈ allIds (ServerForest.node a b c dd) →
        (fetchSubConfig ctx.subConfigs i n).2 j = ctx.subConfigs j := by
      intro j hj
      have hji : j ≠ i := fun hji => hiA (hji ▸ hj)
      exact fetchSubConfig_other ctx.subConfigs i n j hji
    refine ⟨ctx2, ?_, ?_⟩
    · simp only [processLayerInfo, rootIds]
      rw [List.isEmpty_cons]
      simp only [Bool.false_eq_true, if_false]
      rw [show (a :: rootIds dd) = rootIds (ServerForest.node a b c dd) from rfl,
        hrun]
      dsimp only
      rw [mirrorF_congr (ServerForest.node a b c dd) _ ctx.subConfigs hagree]
      rfl
    · intro j hj
      have hji : j ≠ i := by
        intro hji
        exact hj (by simp [hji])
      have hjch : j ∉ allIds (ServerForest.node a b c dd) := by
        intro hmem
        exact hj (List.mem_cons_of_mem i hmem)
      rw [hout j hjch]
      exact fetchSubConfig_other ctx.subConfigs i n j hji

/-- Induction step over siblings: the forest property at some fuel follows
from the node property at that fuel. -/
theorem treeWalkForest_of_node (fuel : ℕ) (hP : TreeWalkNode fuel) :
    TreeWalkForest fuel := by
  intro infos f
  induction f with
  | nil =>
    intro ctx _ _ _
    exact ⟨ctx, by simp [processSubIds, rootIds, mirrorF], fun j _ => rfl⟩
  | node i n ch rest ihc ihr =>
    intro ctx henc hnd hht
    simp only [encodesF, Bool.and_eq_true, decide_eq_true_eq] at henc
    obtain ⟨⟨hinfo, hch⟩, hrest⟩ := henc
    rw [show allIds (ServerForest.node i n ch rest)
        = i :: (allIds ch ++ allIds rest) from rfl] at hnd
    obtain ⟨hi_not, hAB⟩ := List.nodup_cons.mp hnd
    rw [List.nodup_append] at hAB
    obtain ⟨hA, hB, hdisj⟩ := hAB
    have hhts : max (forestHeight ch + 1) (forestHeight rest) ≤ fuel := hht
    have hc1 : forestHeight ch + 1 ≤ fuel :=
      le_trans (le_max_left _ _) hhts
    have hr1 : forestHeight rest ≤ fuel :=
      le_trans (le_max_right _ _) hhts
    have hndhead : (i :: allIds ch).Nodup :=
      List.nodup_cons.mpr ⟨fun h => hi_not (List.mem_append_left _ h), hA⟩
    obtain ⟨ctx2, hrun, hout2⟩ := hP infos i n ch ctx hinfo hch hndhead hc1
    obtain ⟨ctx3, hrun3, hout3⟩ := ihr ctx2 hrest hB hr1
    have hcongr : mirrorF ctx2.subConfigs rest = mirrorF ctx.subConfigs rest := by
      apply mirrorF_congr
      intro j hj
      apply hout2
      intro hmem
      cases List.mem_cons.mp hmem with
      | inl hji => exact hi_not (List.mem_append_right _ (hji ▸ hj))
      | inr hjch => exact hdisj hjch hj
    refine ⟨ctx3, ?_, ?_⟩
    · rw [show rootIds (ServerForest.node i n ch rest)
          = i :: rootIds rest from rfl]
      simp only [processSubIds, hinfo]
      rw [hrun]
      dsimp only
      rw [hrun3]
      dsimp only
      rw [hcongr, mirrorF_cons]
    · intro j hj
      have hj' : j ≠ i ∧ j ∉ allIds ch ∧ j ∉ allIds rest := by
        refine ⟨?_, ?_, ?_⟩ <;> intro h <;>
          exact hj (by simp [allIds, List.mem_cons, List.mem_append, h])
      obtain ⟨hji, hjch, hjrest⟩ := hj'
      rw [hout3 j hjrest]
      exact hout2 j (by
        intro hmem
        cases List.mem_cons.mp hmem with
        | inl h => exact hji h
        | inr h => exact hjch h)

/-- The tree walk satisfies both properties at every fuel. -/
theorem treeWalk_main : ∀ fuel, TreeWalkNode fuel ∧ TreeWalkForest fuel := by
  intro fuel
  induction fuel with
  | zero =>
    constructor
    · intro infos i n ch ctx _ _ _ hht
      exact absurd hht (by omega)
    · intro infos f ctx henc hnd hht
      cases f with
      | nil =>
        exact ⟨ctx, by simp [processSubIds, rootIds, mirrorF], fun j _ => rfl⟩
      | node i n ch rest =>
        exfalso
        have : max (forestHeight ch + 1) (forestHeight rest) ≤ 0 := hht
        have h1 : forestHeight ch + 1 ≤ 0 := le_trans (le_max_left _ _) this
        omega
  | succ f ih =>
    have hP : TreeWalkNode (f + 1) := treeWalkNode_succ f ih.2
    exact ⟨hP, treeWalkForest_of_node (f + 1) hP⟩

/-- C8: for every faithfully encoded server node with distinct ids and
enough fuel, the tree walk produces exactly the mirror of the node: a group
node with its index, resolved name and children in server order when it has
sub-layer ids, and a leaf node carrying only its index otherwise. The
concrete hierarchy of the claim (1 groups 2 and 3, 3 groups 4, only index 1
configured) produces one group node containing a leaf and a group with one
leaf, with the resolved names One and Three. -/
theorem c8_descriptor_tree :
    (∀ (fuel : ℕ) (infos : ℕ → Option LayerInfo) (i : ℕ) (n : String)
        (ch : ServerForest) (ctx : LoadCtx),
        infos i = some ⟨i, n, rootIds ch⟩ →
        encodesF infos ch = true →
        (i :: allIds ch).Nodup →
        forestHeight ch + 1 ≤ fuel →
        ∃ ctx2, processLayerInfo fuel infos ⟨i, n, rootIds ch⟩ ctx =
          .ok (mirrorNode ctx.subConfigs i n ch, ctx2))
    ∧ (dynOnLoad 5 freshDynamicRecord [c8Entry] false c8Infos []).map
        (fun r => r.record.childTree) =
      .ok (some [TreeNode.group 1 "One"
        [TreeNode.leaf 2, TreeNode.group 3 "Three" [TreeNode.leaf 4]]]) := by
  constructor
  · intro fuel infos i n ch ctx h1 h2 h3 h4
    obtain ⟨ctx2, hrun, _⟩ := (treeWalk_main fuel).1 infos i n ch ctx h1 h2 h3 h4
    exact ⟨ctx2, hrun⟩
  · rfl

/-- Witness for C8: the general mirror statement applied to the concrete
hierarchy and configuration. -/
theorem c8_descriptor_tree_witness :
    ∃ ctx2, processLayerInfo 5 c8Infos ⟨1, "One", rootIds c8Forest⟩
        ⟨buildSubConfigs [c8Entry] false, 0, fun _ => none⟩ =
      .ok (mirrorNode (buildSubConfigs [c8Entry] false) 1 "One" c8Forest, ctx2) :=
  c8_descriptor_tree.1 5 c8Infos 1 "One" c8Forest
    ⟨buildSubConfigs [c8Entry] false, 0, fun _ => none⟩
    rfl rfl (by decide) (by decide)
